import Mathlib

/-!
Verification of the curriculum-learning distribution computers
(`multienv/dist_computer.py`) and the multi-environment wrapper
(`menv/menv.py`).

Arrays of floats are modelled as `List ℚ`; numpy views produced by basic
slicing (`arr[:]`) are modelled with an explicit heap of arrays addressed
by identifiers, so that aliasing between fields is captured faithfully.
A numpy elementwise division whose denominator is zero yields a
non-finite value (NaN or inf); such results are modelled as `none` in
`Option ℚ`.
-/

namespace Curriculum

/-- A directed task graph: nodes are `0 .. n-1`, `edges` is the edge list.
Models the networkx `DiGraph` handed to the distribution computers. -/
structure DiGraph where
  n : ℕ
  edges : List (ℕ × ℕ)

/-- Direct predecessors of node `i`, as returned by `G.predecessors(i)`. -/
def preds (G : DiGraph) (i : ℕ) : List ℕ :=
  (List.range G.n).filter (fun j => G.edges.any (fun e => e.1 == j && e.2 == i))

/-- Direct successors of node `i`, as returned by `G.successors(i)`. -/
def succs (G : DiGraph) (i : ℕ) : List ℕ :=
  (List.range G.n).filter (fun j => G.edges.any (fun e => e.1 == i && e.2 == j))

/-- One expansion step of the ancestor closure: add the predecessors of
every node already collected. -/
def ancExpand (G : DiGraph) (s : List ℕ) : List ℕ :=
  (s ++ s.foldr (fun j acc => preds G j ++ acc) []).dedup

/-- All ancestors of node `i` (every node with a directed path to `i`),
as returned by `nx.ancestors(G, i)`: on an acyclic graph the closure is
reached after at most `G.n` expansion steps. -/
def ancestors (G : DiGraph) (i : ℕ) : List ℕ :=
  Nat.iterate (ancExpand G) G.n (preds G i)

/-- `order` lists the nodes of `G` in a topological order (sources first),
as produced by `nx.topological_sort`. -/
abbrev IsTopoOrder (G : DiGraph) (order : List ℕ) : Prop :=
  order.Nodup ∧ order.length = G.n ∧ (∀ i ∈ order, i < G.n) ∧
    ∀ e ∈ G.edges, order.indexOf e.1 < order.indexOf e.2

/-- One iteration of the redistribution loop body of
`NlpPotMancRdDistComputer.__call__` at node `i`:
`attention_to_transfer = rd[i]*tr; rd[i] -= attention_to_transfer;
if predecessors: rd[predecessors] += attention_to_transfer/len(predecessors)`.
Note the subtraction happens whether or not `i` has predecessors. -/
def rdStep (G : DiGraph) (tr : ℚ) (a : List ℚ) (i : ℕ) : List ℚ :=
  let t := a.getD i 0 * tr
  let a1 := a.set i (a.getD i 0 - t)
  let ps := preds G i
  if ps = [] then a1
  else ps.foldl (fun acc p => acc.set p (acc.getD p 0 + t / (ps.length : ℚ))) a1

/-- The full single redistribution pass: the loop
`for env_id in reversed(list(nx.topological_sort(self.G)))`, so `order`
is the reverse of a topological order of `G`. -/
def rdPass (G : DiGraph) (tr : ℚ) (order : List ℕ) (a : List ℚ) : List ℚ :=
  order.foldl (rdStep G tr) a

/-- Mass removed from the system by a redistribution pass: each visit of a
node with no predecessors subtracts `tr` times its current attention with
no recipient.  Specification device for the mass-accounting theorem. -/
def rdLoss (G : DiGraph) (tr : ℚ) : List ℕ → List ℚ → ℚ
  | [], _ => 0
  | i :: rest, a =>
      (if preds G i = [] then a.getD i 0 * tr else 0) + rdLoss G tr rest (rdStep G tr a i)

/-- The 3-task chain graph 0→1→2 used in the spec scenario. -/
def chainG : DiGraph := ⟨3, [(0, 1), (1, 2)]⟩

/-- A single isolated task, the smallest acyclic graph. -/
def singleG : DiGraph := ⟨1, []⟩

/-- State of the bound-tracking fields of `LpPotRrDistComputer` /
`NlpPotMancRdDistComputer`.  numpy arrays live in `heap`, addressed by
identifiers; each instance field holds the identifier of the array it is
currently bound to.  Binding a field to a basic slice `other[:]` is
binding it to the same identifier, since numpy basic slicing returns a
view of the same buffer. -/
structure BState where
  heap : List (List ℚ)
  retId : ℕ
  minId : ℕ
  sminId : ℕ
  maxId : ℕ
  smaxId : ℕ

/-- The array currently bound to identifier `id`. -/
def arrOf (s : BState) (id : ℕ) : List ℚ := s.heap.getD id []

/-- Element `i` of the array bound to `id` (a numpy scalar read). -/
def readAt (s : BState) (id : ℕ) (i : ℕ) : ℚ := (arrOf s id).getD i 0

/-- In-place write `heap[id][i] = v` (a numpy scalar store: it is seen
through every field aliased to `id`). -/
def writeAt (s : BState) (id : ℕ) (i : ℕ) (v : ℚ) : BState :=
  { s with heap := s.heap.set id ((arrOf s id).set i v) }

/-- The constructor of `NlpPotMancRdDistComputer` (and, identically, of
`LpPotRrDistComputer`):
`self.returns = numpy.array(init_returns)`;
`self.max_returns = numpy.array(init_max_returns)`;
`self.min_returns = self.returns[:]`;
`self.saved_min_returns = self.min_returns[:]`;
`self.saved_max_returns = self.max_returns[:]`.
The three slices are views: `returns`, `min_returns` and
`saved_min_returns` all start bound to array 0, `max_returns` and
`saved_max_returns` to array 1. -/
def initB (init_returns init_max_returns : List ℚ) : BState :=
  { heap := [init_returns, init_max_returns],
    retId := 0, minId := 0, sminId := 0, maxId := 1, smaxId := 1 }

/-- `numpy.mean` of a nonempty window. -/
def mean (w : List ℚ) : ℚ := w.sum / (w.length : ℚ)

/-- The body of `update_returns` for one task `i`.  `ws` holds, per task,
the values of the trailing window `self.return_hists[i][-self.K:]`.
Mirrors:
`if len(returns) > 0: self.returns[i] = returns[-1];
mean_return = numpy.mean(returns);
self.min_returns[i] = min(self.saved_min_returns[i], mean_return);
self.max_returns[i] = max(self.saved_max_returns[i], mean_return);
if len(returns) >= self.K: self.saved_min_returns[i] = self.min_returns[i];
self.saved_max_returns[i] = self.max_returns[i]`. -/
def taskUpdate (K : ℕ) (ws : List (List ℚ)) (s : BState) (i : ℕ) : BState :=
  let w := ws.getD i []
  if w = [] then s
  else
    let s1 := writeAt s s.retId i (w.getLastD 0)
    let m := mean w
    let s2 := writeAt s1 s1.minId i (min (readAt s1 s1.sminId i) m)
    let s3 := writeAt s2 s2.maxId i (max (readAt s2 s2.smaxId i) m)
    if K ≤ w.length then
      let s4 := writeAt s3 s3.sminId i (readAt s3 s3.minId i)
      writeAt s4 s4.smaxId i (readAt s4 s4.maxId i)
    else s3

/-- `update_returns`: the loop `for i in range(len(self.returns))`. -/
def updateReturns (K : ℕ) (ws : List (List ℚ)) (s : BState) : BState :=
  (List.range (arrOf s s.retId).length).foldl (taskUpdate K ws) s

/-- `numpy.clip(x, lo, hi)` on one element. -/
def clip1 (x lo hi : ℚ) : ℚ := min (max x lo) hi

/-- Elementwise `numpy.clip` over equal-length arrays. -/
def clipVec (x lo hi : List ℚ) : List ℚ :=
  (List.range x.length).map (fun i => clip1 (x.getD i 0) (lo.getD i 0) (hi.getD i 0))

/-- `self.returns = numpy.clip(self.returns, self.min_returns,
self.max_returns)`: `numpy.clip` allocates a fresh array and the
assignment rebinds `self.returns` to it, detaching it from whatever
array it aliased before. -/
def pushClip (s : BState) : BState :=
  let c := clipVec (arrOf s s.retId) (arrOf s s.minId) (arrOf s s.maxId)
  { s with heap := s.heap ++ [c], retId := s.heap.length }

/-- The bound-tracking portion of one `__call__`:
`self.update_returns()` followed by the clip rebinding of
`self.returns`.  (The remaining statements of `__call__` bind derived
fields — `lps`, `mrs`, `attentions`, … — to fresh arrays and never write
into the bound arrays.) -/
def callUpdate (K : ℕ) (ws : List (List ℚ)) (s : BState) : BState :=
  pushClip (updateReturns K ws s)

/-- Well-formedness of a reachable bound state: the saved fields alias
the candidate fields, the min and max buffers are different buffers,
`returns` is not bound to the max buffer, and the bound buffers exist in
the heap.  Holds for `initB` and is preserved by `callUpdate`. -/
abbrev WFB (s : BState) : Prop :=
  s.sminId = s.minId ∧ s.smaxId = s.maxId ∧ s.minId ≠ s.maxId ∧
    s.retId ≠ s.maxId ∧ s.minId < s.heap.length ∧ s.maxId < s.heap.length

/-- Scenario state: one task, `K = 2`, `init_returns = [0]`,
`init_max_returns = [1]`, after a single call whose trailing window
holds the single return `5`. -/
def demoState : BState := callUpdate 2 [[5]] (initB [0] [1])

/-- Scenario state: one task, `K = 1`, `init_returns = [0]`,
`init_max_returns = [1]`, after a single call whose trailing window
holds the single return `1`; its bounds satisfy `max == min`. -/
def zeroRangeState : BState := callUpdate 1 [[1]] (initB [0] [1])

/-- A whole run: the bound state reached from the constructor after a
sequence of calls, each described by its per-task trailing windows. -/
def runCalls (K : ℕ) (r0 m0 : List ℚ) (calls : List (List (List ℚ))) : BState :=
  calls.foldl (fun st ws => callUpdate K ws st) (initB r0 m0)

/-- numpy elementwise float division of scalars: a zero denominator
yields a non-finite value (NaN for `0/0`), modelled as `none`. -/
def npDivOpt (a b : ℚ) : Option ℚ := if b = 0 then none else some (a / b)

/-- `self.mrs = (self.returns - self.min_returns) /
(self.max_returns - self.min_returns)` (elementwise); identical to
`self.rrs` in `LpPotRrDistComputer.__call__`. -/
def mrsVec (rets mins maxs : List ℚ) : List (Option ℚ) :=
  (List.range rets.length).map
    (fun i => npDivOpt (rets.getD i 0 - mins.getD i 0) (maxs.getD i 0 - mins.getD i 0))

/-- The mastering rates computed by `__call__` right after the clip
rebinding, read off the bound state. -/
def nlpMrs (s : BState) : List (Option ℚ) :=
  mrsVec (arrOf s s.retId) (arrOf s s.minId) (arrOf s s.maxId)

/-- `numpy.absolute` of a vector. -/
def absVec (l : List ℚ) : List ℚ := l.map (fun x => |x|)

/-- `numpy.amax` of a (nonempty) vector. -/
def amax (l : List ℚ) : ℚ := l.foldl max (l.headD 0)

/-- `self.na_lps = self.a_lps / numpy.amax(self.a_lps)
if numpy.amax(self.a_lps) != 0 else self.a_lps`, with
`self.a_lps = numpy.absolute(self.lps)`. -/
def naLps (lps : List ℚ) : List ℚ :=
  let a := absVec lps
  if amax a ≠ 0 then a.map (fun x => x / amax a) else a

/-- `numpy.amin(v[idxs])` for a nonempty index list. -/
def aminAt (v : List ℚ) (idxs : List ℕ) : ℚ :=
  match idxs with
  | [] => 0
  | j :: rest => rest.foldl (fun acc p => min acc (v.getD p 0)) (v.getD j 0)

/-- `self.anc_mrs = numpy.ones(n)` then, for each node with a nonempty
ancestor set, `self.anc_mrs[env_id] = numpy.amin(self.mrs[ancestors])`. -/
def ancMrs (G : DiGraph) (mrs : List ℚ) : List ℚ :=
  (List.range G.n).map (fun i =>
    let a := ancestors G i
    if a = [] then 1 else aminAt mrs a)

/-- `self.succ_mrs = numpy.zeros(n)` then, for each node with a nonempty
direct-successor list, `self.succ_mrs[env_id] =
numpy.amin(self.mrs[successors])`. -/
def succMrs (G : DiGraph) (mrs : List ℚ) : List ℚ :=
  (List.range G.n).map (fun i =>
    let sc := succs G i
    if sc = [] then 0 else aminAt mrs sc)

/-- The state of an `MEnv` wrapper: the active task's own state, the
active task index, the current distribution, the per-task pending-return
lists, and the episode accumulator `returnn`. -/
structure MEnvState (E : Type) where
  envState : E
  envId : ℕ
  dist : List ℚ
  pending : List (List ℚ)
  returnn : ℚ

/-- `MEnv.step`: `obs, reward, done, info = self.env.step(action);
self.returnn += reward; return obs, reward, done, info`.  The active
task's own step function is the external collaborator `stepf`, returning
its observation, reward, done flag, info and its evolved internal
state. -/
def menvStep {E Act Ob Inf : Type} (stepf : E → Act → Ob × ℚ × Bool × Inf × E)
    (s : MEnvState E) (a : Act) : (Ob × ℚ × Bool × Inf) × MEnvState E :=
  let t := stepf s.envState a
  ((t.1, t.2.1, t.2.2.1, t.2.2.2.1),
   { s with envState := t.2.2.2.2, returnn := s.returnn + t.2.1 })

/-- The attention fields of `NlpPotMancRdDistComputer.__call__` after
`self.attentions = ...` and `self.rd_attentions = self.attentions[:]`:
`attentions` is bound to a fresh array and `rd_attentions` to a basic
slice of it, i.e. a view of the same buffer. -/
structure AState where
  heap : List (List ℚ)
  attId : ℕ
  rdId : ℕ

/-- Array bound to identifier `id` in an `AState`. -/
def arrA (s : AState) (id : ℕ) : List ℚ := s.heap.getD id []

/-- Rebind the buffer `id` points to (an in-place whole-array update). -/
def writeA (s : AState) (id : ℕ) (v : List ℚ) : AState :=
  { s with heap := s.heap.set id v }

/-- The state right after `self.rd_attentions = self.attentions[:]`. -/
def mkAttn (pre : List ℚ) : AState := ⟨[pre], 0, 0⟩

/-- One iteration of the redistribution loop, performed in place through
the `rd_attentions` binding. -/
def rdStepA (G : DiGraph) (tr : ℚ) (s : AState) (i : ℕ) : AState :=
  writeA s s.rdId (rdStep G tr (arrA s s.rdId) i)

/-- The redistribution loop of `__call__`, starting from freshly
computed pre-attentions `pre`. -/
def rdLoop (G : DiGraph) (tr : ℚ) (order : List ℕ) (pre : List ℚ) : AState :=
  order.foldl (rdStepA G tr) (mkAttn pre)

/-! ### Shared helper lemmas -/

theorem preds_chainG_zero : preds chainG 0 = [] := by
  simp [preds, chainG, List.range_succ]

theorem preds_chainG_one : preds chainG 1 = [0] := by
  simp [preds, chainG, List.range_succ]

theorem preds_chainG_two : preds chainG 2 = [1] := by
  simp [preds, chainG, List.range_succ]

theorem preds_singleG : preds singleG 0 = [] := by
  simp [preds, singleG, List.range_succ]

theorem preds_lt (G : DiGraph) (i p : ℕ) (hp : p ∈ preds G i) : p < G.n :=
  List.mem_range.mp (List.mem_filter.mp hp).1

theorem sum_set_q (l : List ℚ) (i : ℕ) (v : ℚ) (h : i < l.length) :
    (l.set i v).sum = l.sum - l.getD i 0 + v := by
  induction l generalizing i with
  | nil => simp at h
  | cons a t ih =>
    cases i with
    | zero => simp; ring
    | succ k =>
      simp only [List.set, List.sum_cons, List.getD_cons_succ]
      rw [ih k (by simpa using h)]
      ring

theorem length_foldl_addAt (c : ℚ) (ps : List ℕ) (a : List ℚ) :
    (ps.foldl (fun acc p => acc.set p (acc.getD p 0 + c)) a).length = a.length := by
  induction ps generalizing a with
  | nil => rfl
  | cons p rest ih => simp only [List.foldl_cons]; rw [ih, List.length_set]

theorem sum_foldl_addAt (c : ℚ) (ps : List ℕ) (a : List ℚ)
    (h : ∀ p ∈ ps, p < a.length) :
    (ps.foldl (fun acc p => acc.set p (acc.getD p 0 + c)) a).sum
      = a.sum + (ps.length : ℚ) * c := by
  induction ps generalizing a with
  | nil => simp
  | cons p rest ih =>
    simp only [List.foldl_cons]
    rw [ih _ (fun q hq => by rw [List.length_set]; exact h q (List.mem_cons_of_mem _ hq))]
    rw [sum_set_q _ _ _ (h p (List.mem_cons_self _ _))]
    simp [List.length_cons]
    ring

theorem rdStep_length (G : DiGraph) (tr : ℚ) (a : List ℚ) (i : ℕ) :
    (rdStep G tr a i).length = a.length := by
  simp only [rdStep]
  by_cases hps : preds G i = []
  · rw [if_pos hps, List.length_set]
  · rw [if_neg hps, length_foldl_addAt, List.length_set]

theorem rdStep_sum (G : DiGraph) (tr : ℚ) (a : List ℚ) (i : ℕ)
    (hi : i < a.length) (hp : ∀ p ∈ preds G i, p < a.length) :
    (rdStep G tr a i).sum
      = a.sum - (if preds G i = [] then a.getD i 0 * tr else 0) := by
  simp only [rdStep]
  by_cases hps : preds G i = []
  · rw [if_pos hps, if_pos hps, sum_set_q _ _ _ hi]
    ring
  · rw [if_neg hps, if_neg hps,
      sum_foldl_addAt _ _ _ (fun q hq => by rw [List.length_set]; exact hp q hq),
      sum_set_q _ _ _ hi]
    have hlen : ((preds G i).length : ℚ) ≠ 0 := by
      simpa using fun hc => hps (List.length_eq_zero.mp hc)
    field_simp

/-! ### Claim theorems -/

/-- C1 (counterexample): on the acyclic single-node graph with transfer
ratio 1/2 ∈ [0,1], one redistribution pass over attentions `[1]` yields
total mass 1/2 ≠ 1: the sum of attentions is not preserved, because the
node has no predecessors yet still loses `tr` times its attention. -/
theorem rd_mass_not_conserved :
    IsTopoOrder singleG [0] ∧ (0 : ℚ) ≤ 1/2 ∧ (1/2 : ℚ) ≤ 1 ∧
      (rdPass singleG (1/2) [0] [1]).sum ≠ (([1] : List ℚ)).sum := by
  refine ⟨by decide, by norm_num, by norm_num, ?_⟩
  norm_num [rdPass, rdStep, preds_singleG]

/-- C1 (amended): the redistribution pass conserves mass at every
transfer into predecessors, but each visit of a task with no
predecessors removes `tr` times its current attention with no recipient;
the total attention after the pass equals the total before minus the
accumulated loss at predecessor-less tasks (`rdLoss`).  Mass is
conserved exactly when that loss is zero. -/
theorem rd_mass_accounting (G : DiGraph) (tr : ℚ) (order : List ℕ)
    (a : List ℚ) (hlen : a.length = G.n) (hord : ∀ i ∈ order, i < G.n) :
    (rdPass G tr order a).sum = a.sum - rdLoss G tr order a := by
  induction order generalizing a with
  | nil => simp [rdPass, rdLoss]
  | cons i rest ih =>
    have hi : i < a.length := hlen ▸ hord i (List.mem_cons_self _ _)
    have hp : ∀ p ∈ preds G i, p < a.length :=
      fun p hpp => hlen ▸ preds_lt G i p hpp
    have hlen2 : (rdStep G tr a i).length = G.n := by rw [rdStep_length]; exact hlen
    simp only [rdPass, List.foldl_cons, rdLoss] at *
    rw [ih (rdStep G tr a i) hlen2 (fun j hj => hord j (List.mem_cons_of_mem _ hj))]
    rw [rdStep_sum G tr a i hi hp]
    ring

/-- C1 (witness for the amended theorem): the accounting identity
instantiated on the 3-task chain with `tr = 1/2` and attentions
`[1,1,1]`. -/
theorem rd_mass_accounting_witness :
    ([1, 1, 1] : List ℚ).length = chainG.n ∧ (∀ i ∈ [2, 1, 0], i < chainG.n) ∧
      (rdPass chainG (1/2) [2, 1, 0] [1, 1, 1]).sum
        = ([1, 1, 1] : List ℚ).sum - rdLoss chainG (1/2) [2, 1, 0] [1, 1, 1] :=
  ⟨rfl, by decide, rd_mass_accounting chainG (1/2) [2, 1, 0] [1, 1, 1] rfl (by decide)⟩

/-- C2 (counterexample): on the chain 0→1→2 with `tr = 1/2`, one
redistribution pass over pre-attentions `[1,1,1]` in reverse topological
order does not yield `[1.75, 0.75, 0.5]`: task 0, visited last, also
transfers half of its accumulated attention even though it has no
predecessor to receive it. -/
theorem rd_chain_not_claimed :
    IsTopoOrder chainG [0, 1, 2] ∧
      rdPass chainG (1/2) (List.reverse [0, 1, 2]) [1, 1, 1] ≠ [7/4, 3/4, 1/2] := by
  refine ⟨by decide, ?_⟩
  norm_num [rdPass, rdStep, preds_chainG_zero, preds_chainG_one, preds_chainG_two]

theorem getD_set_self_of_lt {α : Type} (l : List α) (i : ℕ) (x d : α)
    (h : i < l.length) : (l.set i x).getD i d = x := by
  rw [List.getD_eq_getElem _ _ (by simpa using h)]
  simp

theorem getD_set_of_ne {α : Type} (l : List α) (i j : ℕ) (x d : α) (h : i ≠ j) :
    (l.set i x).getD j d = l.getD j d := by
  rcases Nat.lt_or_ge j l.length with hj | hj
  · rw [List.getD_eq_getElem _ _ (by simpa using hj), List.getD_eq_getElem _ _ hj]
    exact List.getElem_set_ne h _
  · rw [List.getD_eq_default _ _ (by simpa using hj), List.getD_eq_default _ _ hj]

theorem getD_set_le (l : List ℚ) (i : ℕ) (v : ℚ) (hv : v ≤ l.getD i 0) (j : ℕ) :
    (l.set i v).getD j 0 ≤ l.getD j 0 := by
  rcases eq_or_ne i j with rfl | hij
  · rcases Nat.lt_or_ge i l.length with hi | hi
    · rw [getD_set_self_of_lt _ _ _ _ hi]; exact hv
    · rw [List.set_eq_of_length_le hi]
  · rw [getD_set_of_ne _ _ _ _ _ hij]

theorem getD_set_ge (l : List ℚ) (i : ℕ) (v : ℚ) (hv : l.getD i 0 ≤ v) (j : ℕ) :
    l.getD j 0 ≤ (l.set i v).getD j 0 := by
  rcases eq_or_ne i j with rfl | hij
  · rcases Nat.lt_or_ge i l.length with hi | hi
    · rw [getD_set_self_of_lt _ _ _ _ hi]; exact hv
    · rw [List.set_eq_of_length_le hi]
  · rw [getD_set_of_ne _ _ _ _ _ hij]

@[simp] theorem writeAt_retId (s : BState) (id i : ℕ) (v : ℚ) :
    (writeAt s id i v).retId = s.retId := rfl

@[simp] theorem writeAt_minId (s : BState) (id i : ℕ) (v : ℚ) :
    (writeAt s id i v).minId = s.minId := rfl

@[simp] theorem writeAt_sminId (s : BState) (id i : ℕ) (v : ℚ) :
    (writeAt s id i v).sminId = s.sminId := rfl

@[simp] theorem writeAt_maxId (s : BState) (id i : ℕ) (v : ℚ) :
    (writeAt s id i v).maxId = s.maxId := rfl

@[simp] theorem writeAt_smaxId (s : BState) (id i : ℕ) (v : ℚ) :
    (writeAt s id i v).smaxId = s.smaxId := rfl

@[simp] theorem writeAt_heap_length (s : BState) (id i : ℕ) (v : ℚ) :
    (writeAt s id i v).heap.length = s.heap.length := by
  simp [writeAt]

theorem arrOf_writeAt_ne (s : BState) (id id' i : ℕ) (v : ℚ) (h : id ≠ id') :
    arrOf (writeAt s id i v) id' = arrOf s id' := by
  simp only [arrOf, writeAt]
  exact getD_set_of_ne _ _ _ _ _ h

theorem readAt_writeAt_ne (s : BState) (id id' i j : ℕ) (v : ℚ) (h : id ≠ id') :
    readAt (writeAt s id i v) id' j = readAt s id' j := by
  simp only [readAt, arrOf_writeAt_ne s id id' i v h]

theorem arrOf_writeAt_self (s : BState) (id i : ℕ) (v : ℚ) :
    arrOf (writeAt s id i v) id
      = if id < s.heap.length then (arrOf s id).set i v else arrOf s id := by
  simp only [arrOf, writeAt]
  rcases Nat.lt_or_ge id s.heap.length with h | h
  · rw [if_pos h, getD_set_self_of_lt _ _ _ _ h]
  · rw [if_neg (Nat.not_lt.mpr h), List.set_eq_of_length_le h]

theorem readAt_writeAt_le (s : BState) (id i : ℕ) (v : ℚ)
    (hv : v ≤ readAt s id i) (j : ℕ) :
    readAt (writeAt s id i v) id j ≤ readAt s id j := by
  simp only [readAt, arrOf_writeAt_self]
  split
  · exact getD_set_le _ _ _ hv j
  · exact le_refl _

theorem readAt_writeAt_ge (s : BState) (id i : ℕ) (v : ℚ)
    (hv : readAt s id i ≤ v) (j : ℕ) :
    readAt s id j ≤ readAt (writeAt s id i v) id j := by
  simp only [readAt, arrOf_writeAt_self]
  split
  · exact getD_set_ge _ _ _ hv j
  · exact le_refl _

theorem taskUpdate_frame (K : ℕ) (ws : List (List ℚ)) (s : BState) (i : ℕ) :
    (taskUpdate K ws s i).retId = s.retId ∧
    (taskUpdate K ws s i).minId = s.minId ∧
    (taskUpdate K ws s i).sminId = s.sminId ∧
    (taskUpdate K ws s i).maxId = s.maxId ∧
    (taskUpdate K ws s i).smaxId = s.smaxId ∧
    (taskUpdate K ws s i).heap.length = s.heap.length := by
  simp only [taskUpdate]
  split
  · exact ⟨rfl, rfl, rfl, rfl, rfl, rfl⟩
  · split <;> simp

theorem foldl_taskUpdate_frame (K : ℕ) (ws : List (List ℚ)) (l : List ℕ)
    (s : BState) :
    (l.foldl (taskUpdate K ws) s).retId = s.retId ∧
    (l.foldl (taskUpdate K ws) s).minId = s.minId ∧
    (l.foldl (taskUpdate K ws) s).sminId = s.sminId ∧
    (l.foldl (taskUpdate K ws) s).maxId = s.maxId ∧
    (l.foldl (taskUpdate K ws) s).smaxId = s.smaxId ∧
    (l.foldl (taskUpdate K ws) s).heap.length = s.heap.length := by
  induction l generalizing s with
  | nil => exact ⟨rfl, rfl, rfl, rfl, rfl, rfl⟩
  | cons j t ih =>
    simp only [List.foldl_cons]
    obtain ⟨a1, a2, a3, a4, a5, a6⟩ := ih (taskUpdate K ws s j)
    obtain ⟨b1, b2, b3, b4, b5, b6⟩ := taskUpdate_frame K ws s j
    exact ⟨a1.trans b1, a2.trans b2, a3.trans b3, a4.trans b4, a5.trans b5,
      a6.trans b6⟩

theorem updateReturns_frame (K : ℕ) (ws : List (List ℚ)) (s : BState) :
    (updateReturns K ws s).retId = s.retId ∧
    (updateReturns K ws s).minId = s.minId ∧
    (updateReturns K ws s).sminId = s.sminId ∧
    (updateReturns K ws s).maxId = s.maxId ∧
    (updateReturns K ws s).smaxId = s.smaxId ∧
    (updateReturns K ws s).heap.length = s.heap.length :=
  foldl_taskUpdate_frame K ws _ s

theorem callUpdate_frame (K : ℕ) (ws : List (List ℚ)) (s : BState) :
    (callUpdate K ws s).minId = s.minId ∧
    (callUpdate K ws s).sminId = s.sminId ∧
    (callUpdate K ws s).maxId = s.maxId ∧
    (callUpdate K ws s).smaxId = s.smaxId ∧
    (callUpdate K ws s).retId = s.heap.length ∧
    (callUpdate K ws s).heap.length = s.heap.length + 1 := by
  obtain ⟨h1, h2, h3, h4, h5, h6⟩ := updateReturns_frame K ws s
  unfold callUpdate pushClip
  refine ⟨h2, h3, h4, h5, h6, ?_⟩
  simpa using h6

theorem readAt_pushClip (s : BState) (id j : ℕ) (h : id < s.heap.length) :
    readAt (pushClip s) id j = readAt s id j := by
  simp only [pushClip, readAt, arrOf]
  rw [List.getD_append _ _ _ _ h]

theorem taskUpdate_max_mono (K : ℕ) (ws : List (List ℚ)) (s : BState) (i : ℕ)
    (h1 : s.sminId = s.minId) (h2 : s.smaxId = s.maxId)
    (h3 : s.minId ≠ s.maxId) (h4 : s.retId ≠ s.maxId) (j : ℕ) :
    readAt s s.maxId j ≤ readAt (taskUpdate K ws s i) s.maxId j := by
  simp only [taskUpdate, writeAt_retId, writeAt_minId, writeAt_sminId,
    writeAt_maxId, writeAt_smaxId]
  rw [h1, h2]
  split
  · exact le_refl _
  · set w := ws.getD i []
    set s1 := writeAt s s.retId i (w.getLastD 0) with hs1
    set s2 := writeAt s1 s.minId i (readAt s1 s.minId i ⊓ mean w) with hs2
    set s3 := writeAt s2 s.maxId i (readAt s2 s.maxId i ⊔ mean w) with hs3
    have e1 : readAt s s.maxId j = readAt s1 s.maxId j :=
      (readAt_writeAt_ne s s.retId s.maxId i j _ h4).symm
    have e2 : readAt s1 s.maxId j = readAt s2 s.maxId j :=
      (readAt_writeAt_ne s1 s.minId s.maxId i j _ h3).symm
    have e3 : readAt s2 s.maxId j ≤ readAt s3 s.maxId j :=
      readAt_writeAt_ge s2 s.maxId i _ le_sup_left j
    split
    · set s4 := writeAt s3 s.minId i (readAt s3 s.minId i) with hs4
      have e4 : readAt s3 s.maxId j = readAt s4 s.maxId j :=
        (readAt_writeAt_ne s3 s.minId s.maxId i j _ h3).symm
      have e5 : readAt s4 s.maxId j ≤
          readAt (writeAt s4 s.maxId i (readAt s4 s.maxId i)) s.maxId j :=
        readAt_writeAt_ge s4 s.maxId i _ (le_refl _) j
      rw [e1, e2]
      exact le_trans e3 (le_of_eq e4 |>.trans e5)
    · rw [e1, e2]
      exact e3

theorem taskUpdate_min_mono (K : ℕ) (ws : List (List ℚ)) (s : BState) (i : ℕ)
    (h1 : s.sminId = s.minId) (h2 : s.smaxId = s.maxId)
    (h3 : s.minId ≠ s.maxId) (h5 : s.retId ≠ s.minId) (j : ℕ) :
    readAt (taskUpdate K ws s i) s.minId j ≤ readAt s s.minId j := by
  simp only [taskUpdate, writeAt_retId, writeAt_minId, writeAt_sminId,
    writeAt_maxId, writeAt_smaxId]
  rw [h1, h2]
  split
  · exact le_refl _
  · set w := ws.getD i []
    set s1 := writeAt s s.retId i (w.getLastD 0) with hs1
    set s2 := writeAt s1 s.minId i (readAt s1 s.minId i ⊓ mean w) with hs2
    set s3 := writeAt s2 s.maxId i (readAt s2 s.maxId i ⊔ mean w) with hs3
    have e1 : readAt s1 s.minId j = readAt s s.minId j :=
      readAt_writeAt_ne s s.retId s.minId i j _ h5
    have e2 : readAt s2 s.minId j ≤ readAt s1 s.minId j :=
      readAt_writeAt_le s1 s.minId i _ inf_le_left j
    have e3 : readAt s3 s.minId j = readAt s2 s.minId j :=
      readAt_writeAt_ne s2 s.maxId s.minId i j _ (Ne.symm h3)
    split
    · set s4 := writeAt s3 s.minId i (readAt s3 s.minId i) with hs4
      have e4 : readAt s4 s.minId j ≤ readAt s3 s.minId j :=
        readAt_writeAt_le s3 s.minId i _ (le_refl _) j
      have e5 : readAt (writeAt s4 s.maxId i (readAt s4 s.maxId i)) s.minId j
          = readAt s4 s.minId j :=
        readAt_writeAt_ne s4 s.maxId s.minId i j _ (Ne.symm h3)
      rw [e5]
      exact le_trans e4 (le_trans (le_of_eq e3) (le_trans e2 (le_of_eq e1)))
    · rw [e3]
      exact le_trans e2 (le_of_eq e1)

theorem foldl_taskUpdate_max_mono (K : ℕ) (ws : List (List ℚ)) (l : List ℕ) :
    ∀ s : BState, s.sminId = s.minId → s.smaxId = s.maxId →
      s.minId ≠ s.maxId → s.retId ≠ s.maxId → ∀ j : ℕ,
      readAt s s.maxId j ≤ readAt (l.foldl (taskUpdate K ws) s) s.maxId j := by
  induction l with
  | nil => intro s _ _ _ _ j; exact le_refl _
  | cons q t ih =>
    intro s h1 h2 h3 h4 j
    simp only [List.foldl_cons]
    obtain ⟨g1, g2, g3, g4, g5, _⟩ := taskUpdate_frame K ws s q
    have step := taskUpdate_max_mono K ws s q h1 h2 h3 h4 j
    have ihs := ih (taskUpdate K ws s q) (by rw [g3, g2, h1]) (by rw [g5, g4, h2])
      (by rw [g2, g4]; exact h3) (by rw [g1, g4]; exact h4) j
    rw [g4] at ihs
    exact le_trans step ihs

theorem foldl_taskUpdate_min_mono (K : ℕ) (ws : List (List ℚ)) (l : List ℕ) :
    ∀ s : BState, s.sminId = s.minId → s.smaxId = s.maxId →
      s.minId ≠ s.maxId → s.retId ≠ s.minId → ∀ j : ℕ,
      readAt (l.foldl (taskUpdate K ws) s) s.minId j ≤ readAt s s.minId j := by
  induction l with
  | nil => intro s _ _ _ _ j; exact le_refl _
  | cons q t ih =>
    intro s h1 h2 h3 h5 j
    simp only [List.foldl_cons]
    obtain ⟨g1, g2, g3, g4, g5, _⟩ := taskUpdate_frame K ws s q
    have step := taskUpdate_min_mono K ws s q h1 h2 h3 h5 j
    have ihs := ih (taskUpdate K ws s q) (by rw [g3, g2, h1]) (by rw [g5, g4, h2])
      (by rw [g2, g4]; exact h3) (by rw [g1, g2]; exact h5) j
    rw [g2] at ihs
    exact le_trans ihs step

/-- C6 (amended): `max_returns[i]` is non-decreasing across every call;
`min_returns[i]` is non-increasing across every call made after
`self.returns` has been detached from `min_returns` (which the clip
rebinding guarantees from the end of the first call onwards).  On the
very first call, where `self.returns` still aliases `min_returns` and
`saved_min_returns`, writing the latest return through that view can
raise `min_returns[i]` (see the counterexample). -/
theorem bounds_monotone_after_detach (K : ℕ) (ws : List (List ℚ))
    (s : BState) (j : ℕ) (hwf : WFB s) :
    readAt s s.maxId j ≤ readAt (callUpdate K ws s) (callUpdate K ws s).maxId j ∧
      (s.retId ≠ s.minId →
        readAt (callUpdate K ws s) (callUpdate K ws s).minId j
          ≤ readAt s s.minId j) := by
  obtain ⟨w1, w2, w3, w4, w5, w6⟩ := hwf
  obtain ⟨f1, _, f3, _, _, _⟩ := callUpdate_frame K ws s
  obtain ⟨_, u2, u3, u4, u5, u6⟩ := updateReturns_frame K ws s
  constructor
  · rw [f3]
    show readAt s s.maxId j ≤ readAt (pushClip (updateReturns K ws s)) s.maxId j
    rw [readAt_pushClip _ _ _ (by rw [u6]; exact w6)]
    exact foldl_taskUpdate_max_mono K ws _ s w1 w2 w3 w4 j
  · intro h5
    rw [f1]
    show readAt (pushClip (updateReturns K ws s)) s.minId j ≤ readAt s s.minId j
    rw [readAt_pushClip _ _ _ (by rw [u6]; exact w5)]
    exact foldl_taskUpdate_min_mono K ws _ s w1 w2 w3 h5 j

/-- C4: in the constructors the saved bound arrays are bound to numpy
views of the candidate bound arrays (`[:]` slicing of an ndarray is a
view), so after any sequence of calls from any initial configuration,
`saved_min_returns` and `min_returns` read as the same array, and
likewise `saved_max_returns` and `max_returns`: the committed snapshot
never differs from the candidate bound, independent of whether K samples
have accumulated.  (In `LpPotDistComputer` only the max pair exists; the
same aliasing argument applies to it.) -/
theorem saved_bounds_alias (K : ℕ) (r0 m0 : List ℚ)
    (calls : List (List (List ℚ))) :
    arrOf (runCalls K r0 m0 calls) (runCalls K r0 m0 calls).sminId
        = arrOf (runCalls K r0 m0 calls) (runCalls K r0 m0 calls).minId ∧
      arrOf (runCalls K r0 m0 calls) (runCalls K r0 m0 calls).smaxId
        = arrOf (runCalls K r0 m0 calls) (runCalls K r0 m0 calls).maxId := by
  have key : ∀ (cs : List (List (List ℚ))) (st : BState),
      st.sminId = st.minId → st.smaxId = st.maxId →
      (cs.foldl (fun st ws => callUpdate K ws st) st).sminId
          = (cs.foldl (fun st ws => callUpdate K ws st) st).minId ∧
        (cs.foldl (fun st ws => callUpdate K ws st) st).smaxId
          = (cs.foldl (fun st ws => callUpdate K ws st) st).maxId := by
    intro cs
    induction cs with
    | nil => intro st h1 h2; exact ⟨h1, h2⟩
    | cons ws rest ih =>
      intro st h1 h2
      simp only [List.foldl_cons]
      obtain ⟨f1, f2, f3, f4, _, _⟩ := callUpdate_frame K ws st
      exact ih (callUpdate K ws st) (f2.trans (h1.trans f1.symm))
        (f4.trans (h2.trans f3.symm))
  obtain ⟨h1, h2⟩ := key calls (initB r0 m0) rfl rfl
  rw [runCalls, h1, h2]
  exact ⟨rfl, rfl⟩

theorem demoState_eval : demoState = ⟨[[5], [5], [5]], 2, 0, 0, 1, 1⟩ := by
  norm_num [demoState, callUpdate, updateReturns, taskUpdate, pushClip, writeAt,
    readAt, arrOf, initB, mean, clipVec, clip1, List.range_succ, min_def, max_def]

/-- C3 (the code at the failing input): one task, `K = 2`,
`init_returns = [0]`, `init_max_returns = [1]`; a single call whose
trailing window holds one sample, the return 5.  Although the window has
1 < K samples, the committed bound `saved_max_returns[0]` moves from 1
to 5 (and `saved_min_returns[0]` from 0 to 5): the `[:]` views make the
`len(returns) >= K` commit step a no-op, so the saved bounds always
track the candidates instead of staying at their previously committed
values as the claim (and the intended two-stage design) states. -/
theorem saved_bound_advances_below_K :
    readAt (initB [0] [1]) (initB [0] [1]).smaxId 0 = 1 ∧
      readAt demoState demoState.smaxId 0 = 5 ∧
      readAt demoState demoState.sminId 0 = 5 ∧
      ([5] : List ℚ).length < 2 := by
  refine ⟨rfl, ?_, ?_, by decide⟩ <;> rw [demoState_eval] <;> rfl

/-- C6 (counterexample): on the first call the claimed monotonicity
fails: with `init_returns = [0]` the initial `min_returns[0]` is 0, but
after one call whose window holds the return 5 it reads 5 — the write of
the latest return goes through the `returns`/`min_returns` view aliasing
and raises the minimum bound. -/
theorem min_bound_increases_on_first_call :
    readAt (initB [0] [1]) (initB [0] [1]).minId 0 = 0 ∧
      readAt demoState demoState.minId 0 = 5 ∧
      ¬ readAt demoState demoState.minId 0
          ≤ readAt (initB [0] [1]) (initB [0] [1]).minId 0 := by
  rw [demoState_eval]
  refine ⟨rfl, rfl, ?_⟩
  norm_num [readAt, arrOf, initB]

/-- C6 (witness): the amended monotonicity applied to the concrete
detached state `demoState` and a second call with window `[3]`. -/
theorem bounds_monotone_after_detach_witness :
    WFB demoState ∧ demoState.retId ≠ demoState.minId ∧
      readAt demoState demoState.maxId 0
          ≤ readAt (callUpdate 2 [[3]] demoState) (callUpdate 2 [[3]] demoState).maxId 0 ∧
      readAt (callUpdate 2 [[3]] demoState) (callUpdate 2 [[3]] demoState).minId 0
          ≤ readAt demoState demoState.minId 0 :=
  ⟨by decide, by decide,
   (bounds_monotone_after_detach 2 [[3]] demoState 0 (by decide)).1,
   (bounds_monotone_after_detach 2 [[3]] demoState 0 (by decide)).2 (by decide)⟩

/-- C2 (amended): on the chain 0→1→2 with `tr = 1/2` and pre-attentions
`[1,1,1]`, the single reverse-topological pass gives `[0.875, 0.75, 0.5]`:
task 2 keeps 0.5 and sends 0.5 to task 1; task 1 sends 0.75 to task 0
(raising it to 1.75); finally task 0 itself sheds half of its 1.75 with
no predecessor to receive it, ending at 0.875. -/
theorem rd_chain_result :
    IsTopoOrder chainG [0, 1, 2] ∧
      rdPass chainG (1/2) (List.reverse [0, 1, 2]) [1, 1, 1] = [7/8, 3/4, 1/2] := by
  refine ⟨by decide, ?_⟩
  norm_num [rdPass, rdStep, preds_chainG_zero, preds_chainG_one, preds_chainG_two]

theorem zeroRangeState_eval : zeroRangeState = ⟨[[1], [1], [1]], 2, 0, 0, 1, 1⟩ := by
  norm_num [zeroRangeState, callUpdate, updateReturns, taskUpdate, pushClip, writeAt,
    readAt, arrOf, initB, mean, clipVec, clip1, List.range_succ, min_def, max_def]

theorem getD_map_range {α : Type} (n : ℕ) (f : ℕ → α) (d : α) (i : ℕ)
    (h : i < n) : ((List.range n).map f).getD i d = f i := by
  rw [List.getD_eq_getElem _ _ (by simpa using h)]
  simp

/-- C5 (counterexample): a reachable state with `max_returns[0] ==
min_returns[0]` (one task, `K = 1`, constant return 1 fed once): the
mastering-rate computation there evaluates `0/0`, which in numpy is NaN —
modelled as `none` — rather than being substituted by a defined
fallback such as the previous rate.  (No runtime exception is raised:
the division is total; but the claimed NaN-avoidance is false.) -/
theorem mrs_nan_on_zero_range :
    readAt zeroRangeState zeroRangeState.maxId 0
        = readAt zeroRangeState zeroRangeState.minId 0 ∧
      nlpMrs zeroRangeState = [none] := by
  rw [zeroRangeState_eval]
  refine ⟨rfl, ?_⟩
  norm_num [nlpMrs, mrsVec, npDivOpt, readAt, arrOf, List.range_succ]

/-- C5 (amended): a call does not raise a runtime fault — the division
is total and yields a value for every task — but when
`max_returns[i] == min_returns[i]` no fallback is substituted: the
mastering rate / rr of task `i` is the NaN produced by evaluating `0/0`
(`none` in this model).  Holds for `LpPotRrDistComputer.rrs` and
`NlpPotMancRdDistComputer.mrs`, which are the same expression. -/
theorem mrs_zero_range_is_nan (s : BState) (i : ℕ)
    (hi : i < (arrOf s s.retId).length)
    (h : readAt s s.maxId i = readAt s s.minId i) :
    (nlpMrs s).getD i (some 0) = none := by
  unfold nlpMrs mrsVec
  rw [getD_map_range _ _ _ _ hi]
  have hz : (arrOf s s.maxId).getD i 0 - (arrOf s s.minId).getD i 0 = 0 := by
    have := h
    simp only [readAt] at this
    rw [this, sub_self]
  rw [hz]
  simp [npDivOpt]

/-- C5 (witness): the NaN result instantiated at the concrete
zero-range state. -/
theorem mrs_zero_range_is_nan_witness :
    0 < (arrOf zeroRangeState zeroRangeState.retId).length ∧
      readAt zeroRangeState zeroRangeState.maxId 0
          = readAt zeroRangeState zeroRangeState.minId 0 ∧
      (nlpMrs zeroRangeState).getD 0 (some 0) = none :=
  ⟨by decide, by rw [zeroRangeState_eval]; exact rfl,
   mrs_zero_range_is_nan zeroRangeState 0 (by decide)
     (by rw [zeroRangeState_eval]; exact rfl)⟩

/-- C7: a task with no ancestors keeps the initialization value 1 in
`anc_mrs`, so the ancestor factor `anc_mrs[i] ** power` is 1 and its
attention is not suppressed; a task with no direct successors keeps the
initialization value 0 in `succ_mrs`, so the successor suppression
factor `1 - succ_mrs[i]` is 1. -/
theorem gates_default_values (G : DiGraph) (mrs : List ℚ) (i p : ℕ)
    (hi : i < G.n) :
    (ancestors G i = [] →
      (ancMrs G mrs).getD i 0 = 1 ∧ ((ancMrs G mrs).getD i 0) ^ p = 1) ∧
    (succs G i = [] →
      (succMrs G mrs).getD i 0 = 0 ∧ 1 - (succMrs G mrs).getD i 0 = 1) := by
  constructor
  · intro ha
    have hg : (ancMrs G mrs).getD i 0 = 1 := by
      simp only [ancMrs]
      rw [getD_map_range _ _ _ _ hi]
      simp [ha]
    exact ⟨hg, by rw [hg]; exact one_pow p⟩
  · intro hs
    have hg : (succMrs G mrs).getD i 0 = 0 := by
      simp only [succMrs]
      rw [getD_map_range _ _ _ _ hi]
      simp [hs]
    exact ⟨hg, by rw [hg]; ring⟩

/-- C7 (witness): on the chain 0→1→2, task 0 has no ancestors and gets
ancestor gate 1; task 2 has no direct successors and gets successor
term 0. -/
theorem gates_default_values_witness :
    (0 < chainG.n ∧ ancestors chainG 0 = [] ∧
        (ancMrs chainG [1/2, 1/3, 1/4]).getD 0 0 = 1) ∧
      (2 < chainG.n ∧ succs chainG 2 = [] ∧
        (succMrs chainG [1/2, 1/3, 1/4]).getD 2 0 = 0) :=
  ⟨⟨by decide, by decide,
    ((gates_default_values chainG [1/2, 1/3, 1/4] 0 2 (by decide)).1 (by decide)).1⟩,
   ⟨by decide, by decide,
    ((gates_default_values chainG [1/2, 1/3, 1/4] 2 2 (by decide)).2 (by decide)).1⟩⟩

/-- C8: if the maximum of the absolute learning progresses is exactly 0,
the normalization is skipped and `na_lps` equals the raw absolute
values (no division is evaluated at all); otherwise every entry is the
absolute learning progress divided by that maximum. -/
theorem na_lps_normalization (lps : List ℚ) (i : ℕ) (hi : i < lps.length) :
    (amax (absVec lps) = 0 → naLps lps = absVec lps) ∧
    (amax (absVec lps) ≠ 0 →
      (naLps lps).getD i 0 = (absVec lps).getD i 0 / amax (absVec lps)) := by
  constructor
  · intro h
    simp only [naLps]
    rw [if_neg (by simpa using h)]
  · intro h
    simp only [naLps]
    rw [if_pos h]
    have hlen : i < (absVec lps).length := by simpa [absVec] using hi
    rw [List.getD_eq_getElem _ _ (by simpa using hlen),
      List.getD_eq_getElem _ _ hlen]
    simp

/-- C8 (witness): normalization on the concrete learning-progress vector
`[1, -2]`, whose absolute maximum is 2. -/
theorem na_lps_normalization_witness :
    0 < ([1, -2] : List ℚ).length ∧ amax (absVec [1, -2]) ≠ 0 ∧
      (naLps [1, -2]).getD 0 0
        = (absVec [1, -2]).getD 0 0 / amax (absVec [1, -2]) :=
  ⟨by decide, by norm_num [amax, absVec, max_def],
   (na_lps_normalization [1, -2] 0 (by decide)).2
     (by norm_num [amax, absVec, max_def])⟩

/-- C9: `MEnv.step(action)` returns exactly the (observation, reward,
done, info) tuple produced by the active task's step, unchanged; its
only state change on the wrapper is adding the returned reward to the
episode accumulator `returnn` — the distribution, the pending returns
and the active-task index are untouched. -/
theorem menv_step_frame {E Act Ob Inf : Type}
    (stepf : E → Act → Ob × ℚ × Bool × Inf × E) (s : MEnvState E) (a : Act) :
    (menvStep stepf s a).1.1 = (stepf s.envState a).1 ∧
    (menvStep stepf s a).1.2.1 = (stepf s.envState a).2.1 ∧
    (menvStep stepf s a).1.2.2.1 = (stepf s.envState a).2.2.1 ∧
    (menvStep stepf s a).1.2.2.2 = (stepf s.envState a).2.2.2.1 ∧
    (menvStep stepf s a).2.returnn = s.returnn + (stepf s.envState a).2.1 ∧
    (menvStep stepf s a).2.dist = s.dist ∧
    (menvStep stepf s a).2.pending = s.pending ∧
    (menvStep stepf s a).2.envId = s.envId :=
  ⟨rfl, rfl, rfl, rfl, rfl, rfl, rfl, rfl⟩

theorem rdLoop_closed (G : DiGraph) (tr : ℚ) (order : List ℕ) :
    ∀ pre : List ℚ, rdLoop G tr order pre = ⟨[rdPass G tr order pre], 0, 0⟩ := by
  induction order with
  | nil => intro pre; rfl
  | cons q t ih =>
    intro pre
    have h1 : rdStepA G tr (mkAttn pre) q = mkAttn (rdStep G tr pre q) := rfl
    calc rdLoop G tr (q :: t) pre
        = t.foldl (rdStepA G tr) (rdStepA G tr (mkAttn pre) q) := rfl
      _ = rdLoop G tr t (rdStep G tr pre q) := by rw [h1]; rfl
      _ = ⟨[rdPass G tr t (rdStep G tr pre q)], 0, 0⟩ := ih _
      _ = ⟨[rdPass G tr (q :: t) pre], 0, 0⟩ := rfl

/-- C10: `self.rd_attentions = self.attentions[:]` binds a numpy view,
so the in-place redistribution pass writes through to the freshly
computed `attentions` buffer: after the call, `attentions` and
`rd_attentions` read as the same array, and that array holds the
post-redistribution values `rdPass …` — the pre-redistribution
attention values are no longer stored anywhere on the object. -/
theorem rd_view_aliasing (G : DiGraph) (tr : ℚ) (order : List ℕ)
    (pre : List ℚ) :
    arrA (rdLoop G tr order pre) (rdLoop G tr order pre).attId
        = arrA (rdLoop G tr order pre) (rdLoop G tr order pre).rdId ∧
      arrA (rdLoop G tr order pre) (rdLoop G tr order pre).attId
        = rdPass G tr order pre := by
  rw [rdLoop_closed G tr order pre]
  exact ⟨rfl, rfl⟩

end Curriculum
